import Mathlib

set_option autoImplicit false

/-!
Verification development for the typespec-electrodb-emitter repository.

The definitions below are a shallow embedding of the emitter's current core
(src/emitter.ts — the file with `buildValidationFunction`, `emitAttribute`,
`$onEmit` and the substring-based import decision), of the object serializer
(src/stringify.ts) and of the `$index` decorator normalization
(src/decorators/$index.ts).  JavaScript numbers are modelled as exact
rationals extended with NaN and the two infinities; JavaScript string length
is modelled by `String.length` (the embedded claims only exercise ASCII
strings, where the two notions of length agree).
-/

/-- Model of a JavaScript number: an exact rational, NaN, or an infinity.
Floating-point rounding is outside the scope of the embedded claims. -/
inductive JSNumber where
  | finite (q : ℚ)
  | nan
  | posInf
  | negInf
deriving DecidableEq, Repr

namespace JSNumber

/-- Comparison `x < q` where `q` is a numeric literal embedded in generated
code.  NaN compares false; minus infinity is below every rational. -/
def ltRat : JSNumber → ℚ → Bool
  | finite x, q => decide (x < q)
  | nan, _ => false
  | posInf, _ => false
  | negInf, _ => true

/-- Comparison `x > q`.  NaN compares false; plus infinity is above every
rational. -/
def gtRat : JSNumber → ℚ → Bool
  | finite x, q => decide (x > q)
  | nan, _ => false
  | posInf, _ => true
  | negInf, _ => false

/-- Model of `Number.isInteger`. -/
def isInteger : JSNumber → Bool
  | finite x => x.den == 1
  | _ => false

/-- Model of `Number.isFinite`. -/
def isFinite : JSNumber → Bool
  | finite _ => true
  | _ => false

end JSNumber

/-- Rendering of a rational as JavaScript renders the numeric literals that
the emitter interpolates into generated text.  Integral values render exactly
as in JavaScript; non-integral values (which no claim exercises) are rendered
as Lean rationals. -/
def ratToString (q : ℚ) : String :=
  if q.den = 1 then toString q.num else toString q

/-- A single-quote character, used inside generated validation messages. -/
def squo : String := "\x27"

/-- Mirrors the `ValidationConstraints` interface of src/emitter.ts. -/
structure ValidationConstraints where
  minLength : Option Nat := none
  maxLength : Option Nat := none
  minValue : Option ℚ := none
  maxValue : Option ℚ := none
  pattern : Option String := none
  format : Option String := none
  isInteger : Bool := false
  isFloat : Bool := false
  isDateTime : Bool := false
  dateTimeType : Option String := none
  enumValues : Option (List String) := none
deriving DecidableEq, Repr

/-- The guard/test part of one check pushed by `buildValidationFunction`. -/
inductive CheckTest where
  | minLength (n : Nat)
  | maxLength (n : Nat)
  | minValue (q : ℚ)
  | maxValue (q : ℚ)
  | integer
  | finiteFloat
  | pattern (escaped : String)
  | dtUtc
  | dtOffset
  | dtPlainDate
  | dtPlainTime
deriving DecidableEq, Repr

/-- One check of the synthesized validation function: a type-guarded test
together with the error message thrown when the test fails. -/
structure Check where
  test : CheckTest
  msg : String
deriving DecidableEq, Repr

/-- The ordered check list assembled by `buildValidationFunction` in
src/emitter.ts: the checks are pushed in the fixed source order minLength,
maxLength, minValue, maxValue, integer, finite-float, pattern, date-time.
Truthiness tests (`if (constraints.pattern)`,
`constraints.isDateTime && constraints.dateTimeType`) skip empty strings. -/
def buildChecks (c : ValidationConstraints) (name : String) : List Check :=
  (match c.minLength with
    | some n => [⟨.minLength n,
        squo ++ name ++ squo ++ " must be at least " ++ toString n ++ " characters"⟩]
    | none => []) ++
  (match c.maxLength with
    | some n => [⟨.maxLength n,
        squo ++ name ++ squo ++ " must be at most " ++ toString n ++ " characters"⟩]
    | none => []) ++
  (match c.minValue with
    | some q => [⟨.minValue q,
        squo ++ name ++ squo ++ " must be at least " ++ ratToString q⟩]
    | none => []) ++
  (match c.maxValue with
    | some q => [⟨.maxValue q,
        squo ++ name ++ squo ++ " must be at most " ++ ratToString q⟩]
    | none => []) ++
  (if c.isInteger then
    [⟨.integer, squo ++ name ++ squo ++ " must be an integer"⟩]
   else []) ++
  (if c.isFloat then
    [⟨.finiteFloat, squo ++ name ++ squo ++ " must be a finite number"⟩]
   else []) ++
  (match c.pattern with
    | some p =>
      if p = "" then []
      else
        let escaped := p.replace "\\" "\\\\"
        [⟨.pattern escaped,
          squo ++ name ++ squo ++ " must match pattern " ++ escaped⟩]
    | none => []) ++
  (if c.isDateTime then
    match c.dateTimeType with
    | some dt =>
      if dt = "utcDateTime" then
        [⟨.dtUtc, squo ++ name ++ squo ++ " must be a valid UTC date-time string"⟩]
      else if dt = "offsetDateTime" then
        [⟨.dtOffset, squo ++ name ++ squo ++ " must be a valid offset date-time string"⟩]
      else if dt = "plainDate" then
        [⟨.dtPlainDate, squo ++ name ++ squo ++ " must be a valid date (YYYY-MM-DD)"⟩]
      else if dt = "plainTime" then
        [⟨.dtPlainTime, squo ++ name ++ squo ++ " must be a valid time (HH:MM:SS)"⟩]
      else []
    | none => []
   else [])

/-- Mirrors `buildValidationFunction` of src/emitter.ts: returns no predicate
when the check list is empty, otherwise the predicate determined by the
ordered check list (the source builds the same predicate by evaluating the
generated function text). -/
def buildValidationFunction (c : ValidationConstraints) (name : String) :
    Option (List Check) :=
  if (buildChecks c name).isEmpty then none else some (buildChecks c name)

/-- Run-time JavaScript value fed to a synthesized validation predicate. -/
inductive JSValue where
  | str (s : String)
  | num (n : JSNumber)
  | boolean (b : Bool)
  | undef
  | nullV
  | other
deriving DecidableEq, Repr

/-- Oracles for the two pieces of JavaScript runtime behaviour a check can
invoke that are external to the emitter: `RegExp.test` (applied to the
backslash-escaped pattern) and `new Date(value)` parse success. -/
structure JSOracle where
  regexTest : String → String → Bool
  dateParses : String → Bool

/-- Matcher for the plain-date regular expression
`^\d{4}-\d{2}-\d{2}$` hard-coded in the generated plainDate check. -/
def plainDateMatches (s : String) : Bool :=
  match s.data with
  | [a, b, c, d, h1, e, f, h2, g, i] =>
    a.isDigit && b.isDigit && c.isDigit && d.isDigit && h1 == '-' &&
    e.isDigit && f.isDigit && h2 == '-' && g.isDigit && i.isDigit
  | _ => false

/-- Tail matcher for the optional fractional part `(\.\d+)?$` of the
plain-time regular expression. -/
def plainTimeFrac : List Char → Bool
  | [] => true
  | c :: rest => c == '.' && !rest.isEmpty && rest.all Char.isDigit

/-- Tail matcher for the optional seconds part `(:\d{2})?` of the plain-time
regular expression, followed by the optional fraction. -/
def plainTimeSeconds : List Char → Bool
  | c :: a :: b :: rest =>
    if c == ':' && a.isDigit && b.isDigit then plainTimeFrac rest
    else plainTimeFrac (c :: a :: b :: rest)
  | l => plainTimeFrac l

/-- Matcher for the plain-time regular expression
`^\d{2}:\d{2}(:\d{2})?(\.\d+)?$` hard-coded in the generated plainTime
check. -/
def plainTimeMatches (s : String) : Bool :=
  match s.data with
  | a :: b :: c :: d :: e :: rest =>
    a.isDigit && b.isDigit && c == ':' && d.isDigit && e.isDigit &&
    plainTimeSeconds rest
  | _ => false

/-- Semantics of one generated check at a run-time value: `some msg` when the
check throws `new Error(msg)`, `none` when control falls through.  Every check
is guarded on the run-time type of the value, exactly as the generated
`typeof` guards are. -/
def checkFails (o : JSOracle) (c : Check) (v : JSValue) : Option String :=
  match c.test, v with
  | .minLength n, .str s => if s.length < n then some c.msg else none
  | .maxLength n, .str s => if s.length > n then some c.msg else none
  | .minValue q, .num x => if x.ltRat q then some c.msg else none
  | .maxValue q, .num x => if x.gtRat q then some c.msg else none
  | .integer, .num x => if !x.isInteger then some c.msg else none
  | .finiteFloat, .num x => if !x.isFinite then some c.msg else none
  | .pattern p, .str s => if !o.regexTest p s then some c.msg else none
  | .dtUtc, .str s => if !o.dateParses s then some c.msg else none
  | .dtOffset, .str s => if !o.dateParses s then some c.msg else none
  | .dtPlainDate, .str s => if !plainDateMatches s then some c.msg else none
  | .dtPlainTime, .str s => if !plainTimeMatches s then some c.msg else none
  | _, _ => none

/-- Semantics of the generated predicate body `check1; check2; ...;
return true`: the first throwing check aborts with its message, otherwise the
predicate returns true. -/
def runChecks (o : JSOracle) : List Check → JSValue → Except String Bool
  | [], _ => .ok true
  | c :: cs, v =>
    match checkFails o c v with
    | some m => .error m
    | none => runChecks o cs v

/-- Rendering of a JavaScript number by `String(...)` / template-literal
interpolation, as used for numeric literal union variants. -/
def jsNumToString : JSNumber → String
  | .finite q => ratToString q
  | .nan => "NaN"
  | .posInf => "Infinity"
  | .negInf => "-Infinity"

/-- Length/value/pattern/format facets attached to a graph node (a property
or a scalar).  The host compiler stores them in side tables consulted through
`getMinLength`, `getMaxLength`, `getMinValue`, `getMaxValue`, `getPattern`
and `getFormat`; the embedding attaches each node's facet record directly to
the node. -/
structure Facets where
  minLength : Option Nat := none
  maxLength : Option Nat := none
  minValue : Option ℚ := none
  maxValue : Option ℚ := none
  pattern : Option String := none
  format : Option String := none
deriving DecidableEq, Repr

/-- A scalar type of the model graph: either a root scalar or a scalar
deriving from a base scalar, each carrying a name and its attached facets. -/
inductive TSScalar where
  | root (name : String) (facets : Facets)
  | derived (name : String) (facets : Facets) (base : TSScalar)
deriving DecidableEq, Repr

/-- Name of a scalar. -/
def TSScalar.name : TSScalar → String
  | .root n _ => n
  | .derived n _ _ => n

/-- Facets attached to a scalar node itself. -/
def TSScalar.facets : TSScalar → Facets
  | .root _ f => f
  | .derived _ f _ => f

/-- An enum of the model graph: ordered members, each a declared name with an
optional literal value.  Numeric literal member values are represented by
their rendered text, which is how every use site consumes them. -/
structure TSEnum where
  members : List (String × Option String)
deriving DecidableEq, Repr

/-- A TypeSpec `Value` as consumed by `extractDefaultValue`. -/
inductive TSValue where
  | stringValue (s : String)
  | numericValue (n : JSNumber)
  | booleanValue (b : Bool)
  | enumValue (name : String) (value : Option String)
  | complexValue
deriving DecidableEq, Repr

/-- A default value attached to an emitted attribute: a plain scalar, or the
current-time producer `() => Date.now()` attached by the timestamp rules. -/
inductive DefaultValue where
  | str (s : String)
  | num (n : JSNumber)
  | bool (b : Bool)
  | nowFn
deriving DecidableEq, Repr

/-- Mirrors `extractDefaultValue` of src/emitter.ts: primitive values map to
themselves, enum values map to the literal value or, absent that, the member
name, and complex values are not supported as simple defaults. -/
def extractDefaultValue : TSValue → Option DefaultValue
  | .stringValue s => some (.str s)
  | .numericValue n => some (.num n)
  | .booleanValue b => some (.bool b)
  | .enumValue name value => some (.str (value.getD name))
  | .complexValue => none

/-- The `type` field of an emitted ElectroDB attribute: a kind name, an
enum-like array of literal strings, or a raw code fragment
(`CustomAttributeType<...>("any")` wrapped in `RawCode`). -/
inductive AttrType where
  | name (s : String)
  | enumVals (vs : List String)
  | raw (code : String)
deriving DecidableEq, Repr

mutual

/-- An emitted ElectroDB attribute descriptor.  Fields mirror the object
literals built in src/emitter.ts; `setNow` records the presence of the
`set: () => Date.now()` behaviour attached by the timestamp rules. -/
inductive Attribute where
  | mk (type : AttrType) (items : AttrItems) (properties : AttrProperties)
      (required : Option Bool) (default : Option DefaultValue)
      (label : Option String) (readOnly : Option Bool) (watch : Option String)
      (validate : Option (List Check)) (setNow : Bool)

/-- The `items` field of an attribute: absent, a literal string array (for
`set` attributes), or a nested attribute (for `list` attributes). -/
inductive AttrItems where
  | none
  | strs (l : List String)
  | attr (a : Attribute)

/-- The `properties` field of an attribute: absent or a nested property
map. -/
inductive AttrProperties where
  | none
  | mk (ps : AttrProps)

/-- An ordered association list of named nested attributes (JavaScript
object insertion order). -/
inductive AttrProps where
  | nil
  | cons (name : String) (a : Attribute) (rest : AttrProps)
end

/-- The `type` field of an attribute. -/
def Attribute.type : Attribute → AttrType
  | .mk t _ _ _ _ _ _ _ _ _ => t

/-- The `items` field of an attribute. -/
def Attribute.items : Attribute → AttrItems
  | .mk _ i _ _ _ _ _ _ _ _ => i

/-- The `properties` field of an attribute. -/
def Attribute.properties : Attribute → AttrProperties
  | .mk _ _ p _ _ _ _ _ _ _ => p

/-- The `required` field of an attribute. -/
def Attribute.required : Attribute → Option Bool
  | .mk _ _ _ r _ _ _ _ _ _ => r

/-- The `default` field of an attribute. -/
def Attribute.default : Attribute → Option DefaultValue
  | .mk _ _ _ _ d _ _ _ _ _ => d

/-- The `label` field of an attribute. -/
def Attribute.label : Attribute → Option String
  | .mk _ _ _ _ _ l _ _ _ _ => l

/-- The `readOnly` field of an attribute. -/
def Attribute.readOnly : Attribute → Option Bool
  | .mk _ _ _ _ _ _ r _ _ _ => r

/-- The `watch` field of an attribute. -/
def Attribute.watch : Attribute → Option String
  | .mk _ _ _ _ _ _ _ w _ _ => w

/-- The `validate` field of an attribute, as its determining check list. -/
def Attribute.validate : Attribute → Option (List Check)
  | .mk _ _ _ _ _ _ _ _ v _ => v

/-- Whether the attribute carries the `set: () => Date.now()` behaviour. -/
def Attribute.setNow : Attribute → Bool
  | .mk _ _ _ _ _ _ _ _ _ s => s

/-- An attribute carrying only a `type` field, as built by the type
mapper. -/
def Attribute.typeOnly (t : AttrType) : Attribute :=
  .mk t .none .none none none none none none none false

/-- Spread-update of the `type` field. -/
def Attribute.withType : Attribute → AttrType → Attribute
  | .mk _ i p r d l ro w v s, t => .mk t i p r d l ro w v s

/-- Spread-update of the `required` field. -/
def Attribute.withRequired : Attribute → Option Bool → Attribute
  | .mk t i p _ d l ro w v s, r => .mk t i p r d l ro w v s

/-- Spread-update of the `default` field. -/
def Attribute.withDefault : Attribute → Option DefaultValue → Attribute
  | .mk t i p r _ l ro w v s, d => .mk t i p r d l ro w v s

/-- Spread-update of the `label` field. -/
def Attribute.withLabel : Attribute → Option String → Attribute
  | .mk t i p r d _ ro w v s, l => .mk t i p r d l ro w v s

/-- Spread-update of the `readOnly` field. -/
def Attribute.withReadOnly : Attribute → Option Bool → Attribute
  | .mk t i p r d l _ w v s, ro => .mk t i p r d l ro w v s

/-- Spread-update of the `watch` field. -/
def Attribute.withWatch : Attribute → Option String → Attribute
  | .mk t i p r d l ro _ v s, w => .mk t i p r d l ro w v s

/-- Spread-update of the `validate` field. -/
def Attribute.withValidate : Attribute → Option (List Check) → Attribute
  | .mk t i p r d l ro w _ s, v => .mk t i p r d l ro w v s

/-- Spread-update of the `set` behaviour flag. -/
def Attribute.withSetNow : Attribute → Bool → Attribute
  | .mk t i p r d l ro w v _, s => .mk t i p r d l ro w v s

mutual

/-- A type of the model graph, covering the kinds consumed by `emitType`:
scalars, models (records and the built-in `Array` shape), enums, unions, the
string and numeric literal kinds that occur as union variants, and a catch-all
for every other kind. -/
inductive TSType where
  | scalar (s : TSScalar)
  | model (m : TSModel)
  | enum (e : TSEnum)
  | union (variants : TSVariants)
  | strLit (value : String)
  | numLit (value : JSNumber)
  | other (kind : String)

/-- A model node: its name (the built-in array shape is named `Array`), its
indexer element type when it is the array shape, and its properties in
`walkPropertiesInherited` order. -/
inductive TSModel where
  | mk (name : String) (indexerValue : TSIndexer) (props : TSProps)

/-- The indexer of a model: absent for plain records, or the element type of
the built-in array shape. -/
inductive TSIndexer where
  | none
  | mk (elementType : TSType)

/-- An ordered list of union variant types. -/
inductive TSVariants where
  | nil
  | cons (t : TSType) (rest : TSVariants)

/-- An ordered list of model properties. -/
inductive TSProps where
  | nil
  | cons (p : TSProp) (rest : TSProps)

/-- A model property: name, optional flag, declared type, optional default
value, and the facets attached directly to the property. -/
inductive TSProp where
  | mk (name : String) (optional : Bool) (type : TSType)
      (defaultValue : Option TSValue) (facets : Facets)
end

/-- Name of a property. -/
def TSProp.name : TSProp → String
  | .mk n _ _ _ _ => n

/-- Optional flag of a property. -/
def TSProp.optional : TSProp → Bool
  | .mk _ o _ _ _ => o

/-- Declared type of a property. -/
def TSProp.type : TSProp → TSType
  | .mk _ _ t _ _ => t

/-- Default value of a property. -/
def TSProp.defaultValue : TSProp → Option TSValue
  | .mk _ _ _ d _ => d

/-- Facets attached directly to a property. -/
def TSProp.facets : TSProp → Facets
  | .mk _ _ _ _ f => f

/-- The kind string of a type, as reported in the `Type kind ... is currently
not supported!` error. -/
def TSType.kindName : TSType → String
  | .scalar _ => "Scalar"
  | .model _ => "Model"
  | .enum _ => "Enum"
  | .union _ => "Union"
  | .strLit _ => "String"
  | .numLit _ => "Number"
  | .other k => k

/-- The integer scalar name set of `isIntegerType` in src/emitter.ts. -/
def integerTypes : List String :=
  ["integer", "int64", "int32", "int16", "int8",
   "uint64", "uint32", "uint16", "uint8", "safeint"]

/-- The float scalar name set of `isFloatType` in src/emitter.ts. -/
def floatTypes : List String :=
  ["float", "float32", "float64", "decimal", "decimal128"]

/-- The date-time scalar name set of `isDateTimeType` in src/emitter.ts. -/
def dateTimeTypes : List String :=
  ["utcDateTime", "offsetDateTime", "plainDate", "plainTime"]

/-- Mirrors `isIntegerType`: the scalar itself is checked first, then the
base scalar chain is walked upward. -/
def isIntegerType : TSScalar → Bool
  | .root n _ => integerTypes.contains n
  | .derived n _ base => integerTypes.contains n || isIntegerType base

/-- Mirrors `isFloatType`: the scalar itself, then the base chain. -/
def isFloatType : TSScalar → Bool
  | .root n _ => floatTypes.contains n
  | .derived n _ base => floatTypes.contains n || isFloatType base

/-- Mirrors `isDateTimeType`: the scalar itself, then the base chain. -/
def isDateTimeType : TSScalar → Bool
  | .root n _ => dateTimeTypes.contains n
  | .derived n _ base => dateTimeTypes.contains n || isDateTimeType base

/-- First name along the chain (the scalar itself first) that belongs to the
date-time name set. -/
def firstDateTimeName : TSScalar → Option String
  | .root n _ => if dateTimeTypes.contains n then some n else none
  | .derived n _ base =>
    if dateTimeTypes.contains n then some n else firstDateTimeName base

/-- Mirrors `getBaseScalarName`: the first date-time name found walking the
chain from the scalar itself, or the scalar's own name when none is found. -/
def getBaseScalarName (t : TSScalar) : String :=
  (firstDateTimeName t).getD t.name

/-- The root of the base scalar chain, as computed by the
`while (baseType.baseScalar)` walk of `emitScalar`. -/
def TSScalar.rootScalar : TSScalar → TSScalar
  | .root n f => .root n f
  | .derived _ _ base => base.rootScalar

/-- Mirrors `emitIntrinsincScalar` of src/emitter.ts (source spelling kept):
maps a root scalar name to the ElectroDB kind name, rejecting `bytes`. -/
def emitIntrinsincScalar (name : String) : Except String String :=
  match name with
  | "boolean" => .ok "boolean"
  | "bytes" => .error "bytes not supported"
  | "numeric" | "integer" | "float" | "int64" | "int32" | "int16" | "int8"
  | "uint64" | "uint32" | "uint16" | "uint8" | "safeint"
  | "float32" | "float64" | "decimal" | "decimal128" => .ok "number"
  | _ => .ok "string"

/-- Mirrors `emitScalar`: walk to the root of the base chain and map its
intrinsic name. -/
def emitScalar (t : TSScalar) : Except String Attribute :=
  match emitIntrinsincScalar t.rootScalar.name with
  | .error e => .error e
  | .ok kind => .ok (.typeOnly (.name kind))

/-- The ordered value list of an enum: each member's literal value or, when
absent, its declared name (the template interpolation `member.value ?? key`
of src/emitter.ts). -/
def enumMemberValues (e : TSEnum) : List String :=
  e.members.map fun m => m.2.getD m.1

/-- Mirrors `emitEnumModel` of src/emitter.ts: an enum-like descriptor whose
`type` is the ordered member value list. -/
def emitEnumModel (e : TSEnum) : Attribute :=
  .typeOnly (.enumVals (enumMemberValues e))

/-- Mirrors `isLiteralUnion`: collects the string value of every string
literal variant and the `String(value)` rendering of every numeric literal
variant, in variant order, and yields nothing as soon as a variant is not a
literal. -/
def isLiteralUnion : TSVariants → Option (List String)
  | .nil => some []
  | .cons t rest =>
    match t with
    | .strLit s => (isLiteralUnion rest).map (s :: ·)
    | .numLit n => (isLiteralUnion rest).map (jsNumToString n :: ·)
    | _ => none

mutual

/-- Mirrors `emitTypeToTypeScript` of src/emitter.ts: the textual TypeScript
type used to parameterize the `CustomAttributeType` escape hatch.  Kinds
outside the four handled cases render as `any`. -/
def emitTypeToTypeScript : TSType → String
  | .scalar s =>
    let rootName := s.rootScalar.name
    if rootName = "boolean" then "boolean"
    else if ["numeric", "integer", "float", "int64", "int32", "int16", "int8",
        "uint64", "uint32", "uint16", "uint8", "safeint",
        "float32", "float64", "decimal", "decimal128"].contains rootName then
      "number"
    else "string"
  | .model (.mk name idx props) =>
    if name = "Array" then
      (match idx with
        | .none => "any[]"
        | .mk elementType => emitTypeToTypeScript elementType ++ "[]")
    else
      "\x7b " ++ String.intercalate "; " (emitTypeToTypeScriptProps props) ++ " \x7d"
  | .enum e =>
    String.intercalate " | "
      (enumMemberValues e |>.map fun v => "\"" ++ v ++ "\"")
  | .union variants =>
    String.intercalate " | " (emitTypeToTypeScriptVariants variants)
  | .strLit _ => "any"
  | .numLit _ => "any"
  | .other _ => "any"
termination_by structural t => t

/-- Renders each property of a record as `name?: type` for
`emitTypeToTypeScript`. -/
def emitTypeToTypeScriptProps : TSProps → List String
  | .nil => []
  | .cons (.mk name opt ty _ _) rest =>
    (name ++ (if opt then "?" else "") ++ ": " ++
      emitTypeToTypeScript ty) :: emitTypeToTypeScriptProps rest
termination_by structural l => l

/-- Renders each union variant for `emitTypeToTypeScript`. -/
def emitTypeToTypeScriptVariants : TSVariants → List String
  | .nil => []
  | .cons t rest => emitTypeToTypeScript t :: emitTypeToTypeScriptVariants rest
termination_by structural l => l
end

/-- Mirrors `emitUnion` of src/emitter.ts: literal unions become enum-like
descriptors; any other union becomes a `RawCode` carrying the
`CustomAttributeType` escape hatch parameterized by the rendered TypeScript
type. -/
def emitUnion (variants : TSVariants) : Attribute :=
  match isLiteralUnion variants with
  | some literals => .typeOnly (.enumVals literals)
  | none =>
    .typeOnly (.raw ("CustomAttributeType<" ++
      emitTypeToTypeScript (.union variants) ++ ">(\"any\")"))

mutual

/-- Mirrors `emitType` of src/emitter.ts: dispatch over the type kind, with
the default branch failing for unsupported kinds. -/
def emitType : TSType → Except String Attribute
  | .scalar s => emitScalar s
  | .model m => emitModel m
  | .enum e => .ok (emitEnumModel e)
  | .union variants => .ok (emitUnion variants)
  | t => .error ("Type kind " ++ t.kindName ++ " is currently not supported!")
termination_by structural t => t

/-- Mirrors `emitModel`: the built-in `Array` shape goes to the array rule,
every other model to the record rule (`emitRecordModel`, inlined here so the
recursion stays structural; the named wrapper is defined after this
block). -/
def emitModel : TSModel → Except String Attribute
  | .mk name idx props =>
    if name = "Array" then emitArrayModel idx
    else
      match emitRecordProps props with
      | .error e => .error e
      | .ok ps =>
        .ok (.mk (.name "map") .none (.mk ps) none none none none none none false)
termination_by structural m => m

/-- Mirrors `emitArrayModel`: an enum element type becomes a `set` descriptor
with the member value list as `items`; any other element type becomes a
`list` descriptor with the mapped element as `items`.  A missing indexer
cannot occur on graphs produced by the front-end. -/
def emitArrayModel : TSIndexer → Except String Attribute
  | .none => .error "Array model without indexer"
  | .mk elementType =>
    match elementType with
    | .enum e =>
      .ok (.mk (.name "set") (.strs (enumMemberValues e)) .none
        none none none none none none false)
    | t =>
      match emitType t with
      | .error e => .error e
      | .ok a =>
        .ok (.mk (.name "list") (.attr a) .none
          none none none none none none false)
termination_by structural i => i

/-- The property loop of `emitRecordModel`, building the ordered `properties`
map. -/
def emitRecordProps : TSProps → Except String AttrProps
  | .nil => .ok .nil
  | .cons p rest =>
    match emitModelProperty p with
    | .error e => .error e
    | .ok a =>
      match emitRecordProps rest with
      | .error e => .error e
      | .ok tail => .ok (.cons p.name a tail)
termination_by structural l => l

/-- Mirrors `emitModelProperty`: the mapped type plus the required flag, plus
the extracted simple default value when one is present. -/
def emitModelProperty : TSProp → Except String Attribute
  | .mk _ opt ty dflt _ =>
    match emitType ty with
    | .error e => .error e
    | .ok t =>
      let attr := t.withRequired (some (!opt))
      match dflt with
      | some v =>
        match extractDefaultValue v with
        | some d => .ok (attr.withDefault (some d))
        | none => .ok attr
      | none => .ok attr
termination_by structural p => p
end

/-- Mirrors `emitRecordModel` of src/emitter.ts: a `map` descriptor with one
nested descriptor per property, in `walkPropertiesInherited` order. -/
def emitRecordModel (props : TSProps) : Except String Attribute :=
  match emitRecordProps props with
  | .error e => .error e
  | .ok ps =>
    .ok (.mk (.name "map") .none (.mk ps) none none none none none none false)

/-- One iteration of the chain walk of `getValidationConstraints`: each
still-unset constraint slot adopts the facet of the current chain node; a
slot that is already set is never overwritten. -/
def adoptUnsetFacets (c : ValidationConstraints) (f : Facets) :
    ValidationConstraints :=
  { c with
    minLength := match c.minLength with
      | some v => some v
      | none => f.minLength,
    maxLength := match c.maxLength with
      | some v => some v
      | none => f.maxLength,
    minValue := match c.minValue with
      | some v => some v
      | none => f.minValue,
    maxValue := match c.maxValue with
      | some v => some v
      | none => f.maxValue,
    pattern := match c.pattern with
      | some v => some v
      | none => f.pattern,
    format := match c.format with
      | some v => some v
      | none => f.format }

/-- The `while (scalarType)` loop of `getValidationConstraints`: walk the
chain from the most specific scalar outward, adopting facets into unset
slots. -/
def walkScalarConstraints (c : ValidationConstraints) : TSScalar →
    ValidationConstraints
  | .root _ f => adoptUnsetFacets c f
  | .derived _ f base => walkScalarConstraints (adoptUnsetFacets c f) base

/-- Mirrors `getValidationConstraints` of src/emitter.ts: property-level
facets are written first, then, for scalar-typed properties, the chain is
walked filling unset slots, integer/float/date-time classifications are
added (integer first, float only otherwise), and enum or literal-union typed
properties record their ordered literal values. -/
def getValidationConstraints (p : TSProp) : ValidationConstraints :=
  let c0 : ValidationConstraints :=
    { minLength := p.facets.minLength
      maxLength := p.facets.maxLength
      minValue := p.facets.minValue
      maxValue := p.facets.maxValue
      pattern := p.facets.pattern
      format := p.facets.format }
  match p.type with
  | .scalar s =>
    let c1 := walkScalarConstraints c0 s
    let c2 :=
      if isIntegerType s then { c1 with isInteger := true }
      else if isFloatType s then { c1 with isFloat := true }
      else c1
    if isDateTimeType s then
      { c2 with isDateTime := true, dateTimeType := some (getBaseScalarName s) }
    else c2
  | .enum e => { c0 with enumValues := some (enumMemberValues e) }
  | .union variants =>
    match isLiteralUnion variants with
    | some literals => { c0 with enumValues := some literals }
    | none => c0
  | _ => c0

/-- The metadata side tables consulted by `emitAttribute`: the values stored
by the `@updatedAt`, `@createdAt` and `@label` decorators, keyed by
property.  The timestamp tables store the optional field-name override (or
its `uat` / `cat` fallback); `emitAttribute` only tests membership. -/
structure EmitCtx where
  updatedAtState : TSProp → Option String
  createdAtState : TSProp → Option String
  labelState : TSProp → Option String

/-- Mirrors the `getLabel` helper of src/emitter.ts. -/
def getLabel (ctx : EmitCtx) (p : TSProp) : Option String :=
  ctx.labelState p

/-- Mirrors `emitAttribute` of src/emitter.ts.  A property marked
`@updatedAt` is forced to a required number with `watch: "*"` and
current-time default and set behaviours; otherwise a property marked
`@createdAt` is forced to a required read-only number with the same
behaviours; both assert that the mapped type is `number`.  Any other
property gets the required flag, a label when the stored label is truthy, an
extracted simple default, and the synthesized validator when one exists. -/
def emitAttribute (ctx : EmitCtx) (p : TSProp) : Except String Attribute :=
  match emitType p.type with
  | .error e => .error e
  | .ok type =>
  if (ctx.updatedAtState p).isSome then
    if type.type = AttrType.name "number" then
      .ok (((((type.withType (.name "number")).withWatch
        (some "*")).withRequired (some true)).withDefault
        (some .nowFn)).withSetNow true)
    else
      .error "createdAt must be a number"
  else if (ctx.createdAtState p).isSome then
    if type.type = AttrType.name "number" then
      .ok (((((type.withType (.name "number")).withReadOnly
        (some true)).withRequired (some true)).withDefault
        (some .nowFn)).withSetNow true)
    else
      .error "createdAt must be a number"
  else
    let attr := type.withRequired (some (!p.optional))
    let attr :=
      match getLabel ctx p with
      | some l => if l = "" then attr else attr.withLabel (some l)
      | none => attr
    let attr :=
      match p.defaultValue with
      | some v =>
        match extractDefaultValue v with
        | some d => attr.withDefault (some d)
        | none => attr
      | none => attr
    let attr :=
      match buildValidationFunction (getValidationConstraints p) p.name with
      | some checks => attr.withValidate (some checks)
      | none => attr
    .ok attr

/-- Mirrors `emitEntity` of src/emitter.ts: compose every own property of the
model, in declaration order.  The source calls `emitAttribute` twice per
property and stores the second (identical) result; the `if (!attr) continue`
branch is dead code because `emitAttribute` never returns a falsy value. -/
def emitEntity (ctx : EmitCtx) : TSProps → Except String AttrProps
  | .nil => .ok .nil
  | .cons p rest =>
    match emitAttribute ctx p with
    | .error e => .error e
    | .ok attr =>
      match emitEntity ctx rest with
      | .error e => .error e
      | .ok tail => .ok (.cons p.name attr tail)

/-- Rendering of an object expression by `@babel/generator`, given the
already-rendered member fragments in insertion order.  The embedding models
the `parseExpression` / `generate` round trip of src/stringify.ts as
preserving each rendered member fragment verbatim; the layout approximates
the generator's multi-line object output, which no claim depends on. -/
def generateObjectCode : List (String × String) → String
  | [] => "\x7b\x7d"
  | ps =>
    "\x7b\n" ++
      String.intercalate ",\n" (ps.map fun kv => "  " ++ kv.1 ++ ": " ++ kv.2) ++
      "\n\x7d"

mutual

/-- A run-time JavaScript value consumed by the serializer of
src/stringify.ts.  The `rawCode` variant is modelled from the spec: the
`RawCode` wrapper exported by the current stringify module (the snapshot
under src/ predates it) renders as its code text verbatim, so the
`CustomAttributeType` escape hatch stays a live expression. -/
inductive JSVal where
  | undef
  | nullV
  | str (s : String)
  | num (n : JSNumber)
  | boolean (b : Bool)
  | func (source : String)
  | arr (elems : JSList)
  | obj (fields : JSFields)
  | rawCode (code : String)
  | bigintV
  | symbolV

/-- An ordered list of array elements. -/
inductive JSList where
  | nil
  | cons (v : JSVal) (rest : JSList)

/-- An ordered association list of object members, in insertion order. -/
inductive JSFields where
  | nil
  | cons (key : String) (v : JSVal) (rest : JSFields)
end

mutual

/-- Mirrors `stringifyValue` of src/stringify.ts: dispatch on the run-time
kind of the value, with `undefined`, `null`, strings (double-quoted with no
escaping), numbers/booleans (literal text), functions (their own source
text), arrays and plain objects handled, and every other kind rejected with
`Unsupported value type`. -/
def stringifyValue : JSVal → Except String String
  | .undef => .ok "undefined"
  | .str s => .ok ("\"" ++ s ++ "\"")
  | .func source => .ok source
  | .num n => .ok (jsNumToString n)
  | .boolean b => .ok (if b then "true" else "false")
  | .arr elems =>
    match stringifyList elems with
    | .error e => .error e
    | .ok items => .ok ("[" ++ String.intercalate ", " items ++ "]")
  | .nullV => .ok "null"
  | .obj fields =>
    match stringifyFields fields with
    | .error e => .error e
    | .ok ps => .ok (generateObjectCode ps)
  | .rawCode code => .ok code
  | .bigintV => .error "Unsupported value type: bigint"
  | .symbolV => .error "Unsupported value type: symbol"
termination_by structural v => v

/-- The element map of `stringifyArray`: each element rendered in order. -/
def stringifyList : JSList → Except String (List String)
  | .nil => .ok []
  | .cons v rest =>
    match stringifyValue v with
    | .error e => .error e
    | .ok t =>
      match stringifyList rest with
      | .error e => .error e
      | .ok tail => .ok (t :: tail)
termination_by structural l => l

/-- The member loop of `stringifyObject`: one `stringifyKeyValue` fragment
per member, in insertion order. -/
def stringifyFields : JSFields → Except String (List (String × String))
  | .nil => .ok []
  | .cons key v rest =>
    match stringifyValue v with
    | .error e => .error e
    | .ok t =>
      match stringifyFields rest with
      | .error e => .error e
      | .ok tail => .ok ((key, t) :: tail)
termination_by structural f => f
end

/-- Mirrors `stringifyArray` of src/stringify.ts. -/
def stringifyArray (l : JSList) : Except String String :=
  match stringifyList l with
  | .error e => .error e
  | .ok items => .ok ("[" ++ String.intercalate ", " items ++ "]")

/-- Mirrors `stringifyObject` of src/stringify.ts: build one fragment per
member and render the merged object expression. -/
def stringifyObject (fields : JSFields) : Except String String :=
  match stringifyFields fields with
  | .error e => .error e
  | .ok ps => .ok (generateObjectCode ps)

/-- The key list of a member list, in order. -/
def JSFields.keys : JSFields → List String
  | .nil => []
  | .cons key _ rest => key :: keys rest

/-- Lift a list of strings to a JavaScript array value. -/
def JSList.ofStrings : List String → JSList
  | [] => .nil
  | s :: rest => .cons (.str s) (ofStrings rest)

/-- The generated throwing source of one check, after the
`return "..." → throw new Error("...")` rewrite applied by
`buildValidationFunction`. -/
def checkThrowSource (c : Check) : String :=
  match c.test with
  | .minLength n =>
    "if (typeof value === \"string\" && value.length < " ++ toString n ++
      ") throw new Error(\"" ++ c.msg ++ "\")"
  | .maxLength n =>
    "if (typeof value === \"string\" && value.length > " ++ toString n ++
      ") throw new Error(\"" ++ c.msg ++ "\")"
  | .minValue q =>
    "if (typeof value === \"number\" && value < " ++ ratToString q ++
      ") throw new Error(\"" ++ c.msg ++ "\")"
  | .maxValue q =>
    "if (typeof value === \"number\" && value > " ++ ratToString q ++
      ") throw new Error(\"" ++ c.msg ++ "\")"
  | .integer =>
    "if (typeof value === \"number\" && !Number.isInteger(value)) throw new Error(\"" ++
      c.msg ++ "\")"
  | .finiteFloat =>
    "if (typeof value === \"number\" && !Number.isFinite(value)) throw new Error(\"" ++
      c.msg ++ "\")"
  | .pattern escaped =>
    "if (typeof value === \"string\" && !new RegExp(\"" ++ escaped ++
      "\").test(value)) throw new Error(\"" ++ c.msg ++ "\")"
  | .dtUtc =>
    "if (typeof value === \"string\") \x7b const d = new Date(value); if (isNaN(d.getTime())) throw new Error(\"" ++
      c.msg ++ "\"); \x7d"
  | .dtOffset =>
    "if (typeof value === \"string\") \x7b const d = new Date(value); if (isNaN(d.getTime())) throw new Error(\"" ++
      c.msg ++ "\"); \x7d"
  | .dtPlainDate =>
    "if (typeof value === \"string\" && !/^\\d\x7b4\x7d-\\d\x7b2\x7d-\\d\x7b2\x7d$/.test(value)) throw new Error(\"" ++
      c.msg ++ "\")"
  | .dtPlainTime =>
    "if (typeof value === \"string\" && !/^\\d\x7b2\x7d:\\d\x7b2\x7d(:\\d\x7b2\x7d)?(\\.\\d+)?$/.test(value)) throw new Error(\"" ++
      c.msg ++ "\")"

/-- The source text of the evaluated predicate built by
`buildValidationFunction`: the throwing checks joined by `; ` inside a
`(value) => { ...; return true; }` arrow function. -/
def validatorSource (checks : List Check) : String :=
  "(value) => \x7b " ++
    String.intercalate "; " (checks.map checkThrowSource) ++
    "; return true; \x7d"

/-- The JavaScript value of an attribute default. -/
def defaultValueToJSVal : DefaultValue → JSVal
  | .str s => .str s
  | .num n => .num n
  | .bool b => .boolean b
  | .nowFn => .func "() => Date.now()"

/-- The JavaScript value of an attribute `type` field. -/
def attrTypeToJSVal : AttrType → JSVal
  | .name s => .str s
  | .enumVals vs => .arr (JSList.ofStrings vs)
  | .raw code => .rawCode code

/-- Prepend an optional member. -/
def optField (name : String) (v : Option JSVal) (rest : JSFields) : JSFields :=
  match v with
  | some x => .cons name x rest
  | none => rest

mutual

/-- The JavaScript object underlying an emitted attribute, as handed to the
serializer by `$onEmit`.  Field order normalizes the per-branch construction
orders of src/emitter.ts; no embedded claim depends on attribute field
order. -/
def attrToJSVal : Attribute → JSVal
  | .mk t i p r d l ro w v s =>
    .obj (.cons "type" (attrTypeToJSVal t)
      (attrItemsFields i
        (attrPropertiesFields p
          (optField "watch" (w.map JSVal.str)
            (optField "readOnly" (ro.map JSVal.boolean)
              (optField "required" (r.map JSVal.boolean)
                (optField "label" (l.map JSVal.str)
                  (optField "default" (d.map defaultValueToJSVal)
                    (optField "validate"
                      (v.map fun cs => JSVal.func (validatorSource cs))
                      (if s then .cons "set" (.func "() => Date.now()") .nil
                       else .nil))))))))))
termination_by structural a => a

/-- The optional `items` member of an attribute object. -/
def attrItemsFields : AttrItems → JSFields → JSFields
  | .none, rest => rest
  | .strs l, rest => .cons "items" (.arr (JSList.ofStrings l)) rest
  | .attr a, rest => .cons "items" (attrToJSVal a) rest
termination_by structural i => i

/-- The optional `properties` member of an attribute object. -/
def attrPropertiesFields : AttrProperties → JSFields → JSFields
  | .none, rest => rest
  | .mk ps, rest => .cons "properties" (.obj (attrPropsToJSFields ps)) rest
termination_by structural p => p

/-- The members of a nested property map, in insertion order. -/
def attrPropsToJSFields : AttrProps → JSFields
  | .nil => .nil
  | .cons n a rest => .cons n (attrToJSVal a) (attrPropsToJSFields rest)
termination_by structural ps => ps
end

/-- The `model` block of an entity schema: identity metadata attached by the
`@entity` decorator, with the version already defaulted to `"1"` by
`$onEmit` when unspecified. -/
structure SchemaModelMeta where
  entity : String
  service : String
  version : String

/-- One entity schema as assembled by `$onEmit`: composed attributes, the
index descriptors stored by the `@index` decorator (kept as a JavaScript
value), and identity metadata. -/
structure EntitySchema where
  attributes : AttrProps
  indexes : JSVal
  model : SchemaModelMeta

/-- The JavaScript object underlying one entity schema. -/
def schemaToJSVal (s : EntitySchema) : JSVal :=
  .obj (.cons "attributes" (.obj (attrPropsToJSFields s.attributes))
    (.cons "indexes" s.indexes
      (.cons "model" (.obj (.cons "entity" (.str s.model.entity)
        (.cons "service" (.str s.model.service)
          (.cons "version" (.str s.model.version) .nil)))) .nil)))

/-- The `entityDefinitions` text of `$onEmit`: one
`export const NAME = ... as const` line per entity, joined by newlines. -/
def entityDefinitions : List (String × EntitySchema) → Except String (List String)
  | [] => .ok []
  | (name, s) :: rest =>
    match (match schemaToJSVal s with
      | .obj fields => stringifyObject fields
      | v => stringifyValue v) with
    | .error e => .error e
    | .ok body =>
      match entityDefinitions rest with
      | .error e => .error e
      | .ok tail =>
        .ok (("export const " ++ name ++ " = " ++ body ++ " as const") :: tail)

/-- Occurrence of `p` as a prefix of some suffix of the character list. -/
def containsSub (p : List Char) : List Char → Bool
  | [] => p.isEmpty
  | c :: rest => p.isPrefixOf (c :: rest) || containsSub p rest

/-- JavaScript `String.prototype.includes`: `pat` occurs as a substring of
`s`. -/
def hasSubstr (s pat : String) : Bool :=
  containsSub pat.data s.data

/-- The import section built by `$onEmit`: the `CustomAttributeType` import
line is present exactly when the joined entity definitions contain the text
`CustomAttributeType` (the source tests
`entityDefinitions.includes("CustomAttributeType")`). -/
def importsSection (defs : String) : String :=
  if hasSubstr defs "CustomAttributeType" then
    "import \x7b CustomAttributeType \x7d from \"electrodb\";\n\n"
  else ""

/-- The generated TypeScript source of `$onEmit`: the import section followed
by the entity definitions. -/
def typescriptSource (entities : List (String × EntitySchema)) :
    Except String String :=
  match entityDefinitions entities with
  | .error e => .error e
  | .ok defs =>
    let joined := String.intercalate "\n" defs
    .ok (importsSection joined ++ joined)

/-- Whether a compilation pass emits the `CustomAttributeType` import
line. -/
def importEmitted (entities : List (String × EntitySchema)) : Bool :=
  match entityDefinitions entities with
  | .ok defs => hasSubstr (String.intercalate "\n" defs) "CustomAttributeType"
  | .error _ => false

mutual

/-- Whether an attribute descriptor used the opaque-type escape hatch, that
is, whether its mapped type (or a nested one) is a `RawCode` produced by
`emitUnion` for a non-literal union. -/
def attrUsesCustom : Attribute → Bool
  | .mk t i p _ _ _ _ _ _ _ =>
    (match t with
      | .raw _ => true
      | _ => false) ||
    attrItemsUsesCustom i || attrPropertiesUsesCustom p
termination_by structural a => a

/-- Escape-hatch use inside an `items` field. -/
def attrItemsUsesCustom : AttrItems → Bool
  | .none => false
  | .strs _ => false
  | .attr a => attrUsesCustom a
termination_by structural i => i

/-- Escape-hatch use inside a `properties` field. -/
def attrPropertiesUsesCustom : AttrProperties → Bool
  | .none => false
  | .mk ps => attrPropsUsesCustom ps
termination_by structural p => p

/-- Escape-hatch use inside a nested property map. -/
def attrPropsUsesCustom : AttrProps → Bool
  | .nil => false
  | .cons _ a rest => attrUsesCustom a || attrPropsUsesCustom rest
termination_by structural ps => ps
end

/-- Whether any attribute of any entity schema used the opaque-type escape
hatch. -/
def schemasUseCustom (entities : List (String × EntitySchema)) : Bool :=
  entities.any fun e => attrPropsUsesCustom e.2.attributes

/-- The base relation of an external scalar derivation graph, which — unlike
the inductive `TSScalar` chains — may contain cycles: node `s` derives from
`g s` when that is not `none`. -/
def ScalarGraph : Type := Nat → Option Nat

/-- The `while (baseType.baseScalar)` root walk of `emitScalar` (the same
loop appears in `isIntegerType`, `isFloatType`, `isDateTimeType`,
`getBaseScalarName` and `getValidationConstraints`), instrumented with a step
bound: `some r` when the loop reaches the chain root `r` within the bound,
`none` when the loop is still running after that many steps.  The source
contains no cycle detection, so the bound is the only thing that stops the
embedded walk. -/
def walkRoot (g : ScalarGraph) : Nat → Nat → Option Nat
  | _, 0 => none
  | s, fuel + 1 =>
    match g s with
    | none => some s
    | some b => walkRoot g b fuel

/-- The walk terminates when some step bound suffices. -/
def walkTerminates (g : ScalarGraph) (s : Nat) : Prop :=
  ∃ n, (walkRoot g s n).isSome

/-- The node reached after `k` applications of the base relation. -/
def iterBase (g : ScalarGraph) (s : Nat) : Nat → Option Nat
  | 0 => some s
  | k + 1 => (iterBase g s k).bind g

/-- A one-node derivation graph whose single scalar is its own base: the
smallest cyclic chain. -/
def cyclicGraph : ScalarGraph :=
  fun n => if n = 0 then some 0 else none

/-- One value of the tuple passed to the `@index` decorator as a `pk`/`sk`
composite list: a `ModelProperty` together with its containing model, or a
value of another kind.  Object identity of models is represented by the
model name. -/
inductive TupleEntry where
  | modelProp (ownerName : String) (name : String)
  | otherKind (kind : String)
deriving DecidableEq, Repr

/-- Mirrors `extractFieldNames` of src/decorators/$index.ts: every tuple
value must be a `ModelProperty` of the target model, and the property names
are collected in order; any other value fails the
`Access patterns must use properties from the model` assertion. -/
def extractFieldNames (targetName : String) :
    List TupleEntry → Except String (List String)
  | [] => .ok []
  | e :: rest =>
    match e with
    | .modelProp owner n =>
      if owner = targetName then
        (extractFieldNames targetName rest).map (n :: ·)
      else
        .error "Access patterns must use properties from the model"
    | .otherKind _ =>
      .error "Access patterns must use properties from the model"

/-- First facet value found walking the chain from the scalar itself to the
root. -/
def chainFirst {α : Type} (sel : Facets → Option α) : TSScalar → Option α
  | .root _ f => sel f
  | .derived _ f base => (sel f).orElse fun _ => chainFirst sel base

/-- A scalar whose own name is in the float set while its base chain hits the
integer set, so both classification walks match. -/
def bothScalar : TSScalar := .derived "float32" {} (.root "int32" {})

/-- A property typed by `bothScalar` with no facets of its own. -/
def bothProp : TSProp := .mk "n" false (.scalar bothScalar) none {}

/-- A metadata table marking every property as both an update and a creation
timestamp. -/
def ctxBoth : EmitCtx := ⟨fun _ => some "uat", fun _ => some "cat", fun _ => none⟩

/-- A metadata table marking every property as a creation timestamp only. -/
def ctxCreated : EmitCtx := ⟨fun _ => none, fun _ => some "cat", fun _ => none⟩

/-- A required `int32` property with no further metadata. -/
def int32Prop : TSProp := .mk "createdAt" false (.scalar (.root "int32" {})) none {}

/-- A metadata table attaching the empty-string label to every property. -/
def ctxEmptyLabel : EmitCtx := ⟨fun _ => none, fun _ => none, fun _ => some ""⟩

/-- A required plain string property with no facets. -/
def plainStringProp : TSProp :=
  .mk "firstName" false (.scalar (.root "string" {})) none {}

/-- The well-formedness invariant claimed for mapped attribute descriptors:
`list` implies a nested items descriptor, `map` implies a properties map,
and `set` or an enum-like descriptor implies a non-empty literal string
array. -/
def attrWellFormed (a : Attribute) : Prop :=
  (a.type = .name "list" → ∃ x, a.items = .attr x) ∧
  (a.type = .name "map" → a.properties ≠ .none) ∧
  (a.type = .name "set" → ∃ l, a.items = .strs l ∧ l ≠ []) ∧
  (∀ vs, a.type = .enumVals vs → vs ≠ [])

/-- The non-emptiness side condition the invariant actually needs: the type's
own enum (or array-element enum) has at least one member, and an all-literal
union has at least one variant. -/
def enumSourcesNonEmptyTop : TSType → Prop
  | .enum e => e.members ≠ []
  | .model (.mk name idx _) =>
    name = "Array" →
      (match idx with
        | .mk (.enum e) => e.members ≠ []
        | _ => True)
  | .union variants =>
    ∀ lits, isLiteralUnion variants = some lits → lits ≠ []
  | _ => True

/-- A two-node acyclic derivation graph: node 0 derives from the root 1. -/
def acyclicGraph : ScalarGraph := fun n => if n = 0 then some 1 else none

/-- An entity schema with no escape-hatch use whose only attribute carries a
string default value whose text is `CustomAttributeType`. -/
def taskSchema : EntitySchema :=
  { attributes := .cons "note"
      (.mk (.name "string") .none .none (some true)
        (some (.str "CustomAttributeType")) none none none none false) .nil,
    indexes := .obj .nil,
    model := ⟨"task", "org", "1"⟩ }

/-- An entity schema whose only attribute used the opaque-type escape
hatch. -/
def unionSchema : EntitySchema :=
  { attributes := .cons "contact"
      (.mk (.raw "CustomAttributeType<string | number>(\"any\")") .none .none
        (some true) none none none none none false) .nil,
    indexes := .obj .nil,
    model := ⟨"u", "org", "1"⟩ }

/-- The name carried by a tuple entry. -/
def TupleEntry.entryName : TupleEntry → String
  | .modelProp _ n => n
  | .otherKind k => k

/-- Helper: the synthesized predicate is absent exactly when the check list
is empty. -/
theorem buildValidationFunction_eq_none_iff (c : ValidationConstraints)
    (name : String) :
    buildValidationFunction c name = none ↔ buildChecks c name = [] := by
  simp only [buildValidationFunction]
  split <;> simp_all [List.isEmpty_iff]

/-- Helper: a predicate body whose checks all fall through returns true. -/
theorem runChecks_all_pass (o : JSOracle) (cs : List Check) (v : JSValue)
    (h : ∀ ch ∈ cs, checkFails o ch v = none) :
    runChecks o cs v = .ok true := by
  induction cs with
  | nil => rfl
  | cons c rest ih =>
    have hc := h c (List.mem_cons_self c rest)
    simp only [runChecks, hc]
    exact ih fun ch hch => h ch (List.mem_cons_of_mem c hch)

/-- C1: `buildValidationFunction` returns no predicate if and only if no
applicable check exists (enum membership and format contribute no check);
a returned predicate runs the checks in the fixed order minLength,
maxLength, minValue, maxValue, integer, finite-float, pattern, date-time
and reports exactly the first matched failure — for `{minLength:25,
maxLength:25}` and name `pk`, input `too-short` fails with the
`at least 25 characters` message, an input of length 26 fails with the
`at most 25 characters` message, an input of length 25 passes — and it
returns true on every input that violates no check, including inputs whose
run-time type differs from the type a check guards. -/
theorem c1_synthesizeValidator_spec :
    (∀ (c : ValidationConstraints) (name : String),
      buildValidationFunction c name = none ↔
        (c.minLength = none ∧ c.maxLength = none ∧ c.minValue = none ∧
         c.maxValue = none ∧ c.isInteger = false ∧ c.isFloat = false ∧
         (c.pattern = none ∨ c.pattern = some "") ∧
         (c.isDateTime = false ∨
           (c.dateTimeType ≠ some "utcDateTime" ∧
            c.dateTimeType ≠ some "offsetDateTime" ∧
            c.dateTimeType ≠ some "plainDate" ∧
            c.dateTimeType ≠ some "plainTime")))) ∧
    (∀ (c : ValidationConstraints) (name : String),
      buildValidationFunction
          { c with format := none, enumValues := none } name =
        buildValidationFunction c name) ∧
    (∀ (o : JSOracle) (c : ValidationConstraints) (name : String)
        (cs : List Check) (v : JSValue),
      buildValidationFunction c name = some cs →
      (∀ ch ∈ cs, checkFails o ch v = none) →
      runChecks o cs v = .ok true) ∧
    (∀ o : JSOracle,
      buildValidationFunction
          { minLength := some 25, maxLength := some 25 } "pk" =
        some (buildChecks { minLength := some 25, maxLength := some 25 } "pk") ∧
      runChecks o
          (buildChecks { minLength := some 25, maxLength := some 25 } "pk")
          (.str "too-short") =
        .error (squo ++ "pk" ++ squo ++ " must be at least 25 characters") ∧
      runChecks o
          (buildChecks { minLength := some 25, maxLength := some 25 } "pk")
          (.str "abcdefghijklmnopqrstuvwxyz") =
        .error (squo ++ "pk" ++ squo ++ " must be at most 25 characters") ∧
      runChecks o
          (buildChecks { minLength := some 25, maxLength := some 25 } "pk")
          (.str "abcdefghijklmnopqrstuvwxy") = .ok true ∧
      runChecks o
          (buildChecks { minLength := some 25, maxLength := some 25 } "pk")
          (.num (.finite 3)) = .ok true ∧
      runChecks o
          (buildChecks { minLength := some 25, maxLength := some 25 } "pk")
          (.boolean true) = .ok true) ∧
    (∀ o : JSOracle,
      runChecks o
          (buildChecks { minLength := some 30, maxLength := some 10 } "pk")
          (.str "abcdefghijklmnopqrst") =
        .error (squo ++ "pk" ++ squo ++ " must be at least 30 characters")) := by
  refine ⟨?_, ?_, ?_, ?_, ?_⟩
  · intro c name
    rw [buildValidationFunction_eq_none_iff]
    obtain ⟨ml, xl, mv, xv, pat, fmt, ii, ff, idt, dtt, ev⟩ := c
    simp only [buildChecks, List.append_eq_nil, and_assoc]
    refine and_congr ?_ (and_congr ?_ (and_congr ?_ (and_congr ?_
      (and_congr ?_ (and_congr ?_ (and_congr ?_ ?_))))))
    · cases ml <;> simp
    · cases xl <;> simp
    · cases mv <;> simp
    · cases xv <;> simp
    · cases ii <;> simp
    · cases ff <;> simp
    · cases pat with
      | none => simp
      | some p => by_cases hp : p = "" <;> simp [hp]
    · cases idt with
      | false => simp
      | true =>
        cases dtt with
        | none => simp
        | some dt =>
          by_cases h1 : dt = "utcDateTime" <;>
            by_cases h2 : dt = "offsetDateTime" <;>
            by_cases h3 : dt = "plainDate" <;>
            by_cases h4 : dt = "plainTime" <;>
            simp [h1, h2, h3, h4]
  · intro c name
    obtain ⟨ml, xl, mv, xv, pat, fmt, ii, ff, idt, dtt, ev⟩ := c
    rfl
  · intro o c name cs v hsome hall
    exact runChecks_all_pass o cs v hall
  · intro o
    exact ⟨rfl, rfl, rfl, rfl, rfl, rfl⟩
  · intro o
    rfl

/-- Witness for C1: the soundness component applied at the `{minLength:25,
maxLength:25}` example and a boolean input, which no check guards. -/
theorem c1_synthesizeValidator_spec_witness :
    runChecks ⟨fun _ _ => true, fun _ => true⟩
        (buildChecks { minLength := some 25, maxLength := some 25 } "pk")
        (.boolean true) = .ok true :=
  c1_synthesizeValidator_spec.2.2.1 ⟨fun _ _ => true, fun _ => true⟩
    { minLength := some 25, maxLength := some 25 } "pk" _ (.boolean true) rfl
    (by decide)

/-- Helper: positional form of the member value map. -/
theorem getD_memberValues (l : List (String × Option String)) (i : Nat)
    (h : i < l.length) :
    (l.map fun m => m.2.getD m.1).getD i "" =
      (l.getD i ("", none)).2.getD (l.getD i ("", none)).1 := by
  induction l generalizing i with
  | nil => simp at h
  | cons m rest ih =>
    cases i with
    | zero => simp [List.getD]
    | succ j =>
      have hj : j < rest.length := by simpa using h
      simpa [List.getD] using ih j hj

/-- C2: `mapType` on an Enum yields an enum-like descriptor whose value list
at position `i` is member `i`'s literal value or, absent that, its declared
name; an Array of an Enum yields a `set` descriptor with the same ordered
list as `items`; and no validator is synthesized for enum membership. -/
theorem c2_mapType_enum_spec :
    (∀ (e : TSEnum),
      emitType (.enum e) = .ok (.typeOnly (.enumVals (enumMemberValues e))) ∧
      (enumMemberValues e).length = e.members.length) ∧
    (∀ (e : TSEnum) (i : Nat), i < e.members.length →
      (enumMemberValues e).getD i "" =
        (e.members.getD i ("", none)).2.getD (e.members.getD i ("", none)).1) ∧
    (∀ (e : TSEnum) (props : TSProps),
      emitType (.model (.mk "Array" (.mk (.enum e)) props)) =
        .ok (.mk (.name "set") (.strs (enumMemberValues e)) .none
          none none none none none none false)) ∧
    (∀ (vals : List String) (name : String),
      buildValidationFunction { enumValues := some vals } name = none) ∧
    (∀ (e : TSEnum) (nm : String) (opt : Bool) (dflt : Option TSValue),
      buildValidationFunction
        (getValidationConstraints (.mk nm opt (.enum e) dflt {})) nm = none) := by
  refine ⟨?_, ?_, ?_, ?_, ?_⟩
  · intro e
    exact ⟨rfl, by simp [enumMemberValues]⟩
  · intro e i h
    exact getD_memberValues e.members i h
  · intro e props
    rfl
  · intro vals name
    rfl
  · intro e nm opt dflt
    rfl

/-- Witness for C2: the positional component at a two-member enum whose
second member carries a literal value. -/
theorem c2_mapType_enum_spec_witness :
    (enumMemberValues ⟨[("LOW", none), ("MEDIUM", some "med")]⟩).getD 1 "" =
      (([("LOW", none), ("MEDIUM", some "med")].getD 1 ("", none)).2.getD
        ([("LOW", none), ("MEDIUM", some "med")].getD 1 ("", none)).1) :=
  c2_mapType_enum_spec.2.1 ⟨[("LOW", none), ("MEDIUM", some "med")]⟩ 1
    (by decide)

/-- Helper: the chain walk resolves `minLength` to the property value or the
first chain value. -/
theorem walkScalarConstraints_minLength (c : ValidationConstraints)
    (s : TSScalar) :
    (walkScalarConstraints c s).minLength =
      c.minLength.orElse fun _ => chainFirst (fun f => f.minLength) s := by
  induction s generalizing c with
  | root n f =>
    cases hc : c.minLength <;>
      simp [walkScalarConstraints, adoptUnsetFacets, chainFirst,
        Option.orElse, hc]
  | derived n f base ih =>
    rw [walkScalarConstraints, ih]
    cases hc : c.minLength <;> cases hf : f.minLength <;>
      simp [adoptUnsetFacets, chainFirst, Option.orElse, hc, hf]

/-- Helper: the chain walk resolves `maxLength` likewise. -/
theorem walkScalarConstraints_maxLength (c : ValidationConstraints)
    (s : TSScalar) :
    (walkScalarConstraints c s).maxLength =
      c.maxLength.orElse fun _ => chainFirst (fun f => f.maxLength) s := by
  induction s generalizing c with
  | root n f =>
    cases hc : c.maxLength <;>
      simp [walkScalarConstraints, adoptUnsetFacets, chainFirst,
        Option.orElse, hc]
  | derived n f base ih =>
    rw [walkScalarConstraints, ih]
    cases hc : c.maxLength <;> cases hf : f.maxLength <;>
      simp [adoptUnsetFacets, chainFirst, Option.orElse, hc, hf]

/-- Helper: the chain walk resolves `minValue` likewise. -/
theorem walkScalarConstraints_minValue (c : ValidationConstraints)
    (s : TSScalar) :
    (walkScalarConstraints c s).minValue =
      c.minValue.orElse fun _ => chainFirst (fun f => f.minValue) s := by
  induction s generalizing c with
  | root n f =>
    cases hc : c.minValue <;>
      simp [walkScalarConstraints, adoptUnsetFacets, chainFirst,
        Option.orElse, hc]
  | derived n f base ih =>
    rw [walkScalarConstraints, ih]
    cases hc : c.minValue <;> cases hf : f.minValue <;>
      simp [adoptUnsetFacets, chainFirst, Option.orElse, hc, hf]

/-- Helper: the chain walk resolves `maxValue` likewise. -/
theorem walkScalarConstraints_maxValue (c : ValidationConstraints)
    (s : TSScalar) :
    (walkScalarConstraints c s).maxValue =
      c.maxValue.orElse fun _ => chainFirst (fun f => f.maxValue) s := by
  induction s generalizing c with
  | root n f =>
    cases hc : c.maxValue <;>
      simp [walkScalarConstraints, adoptUnsetFacets, chainFirst,
        Option.orElse, hc]
  | derived n f base ih =>
    rw [walkScalarConstraints, ih]
    cases hc : c.maxValue <;> cases hf : f.maxValue <;>
      simp [adoptUnsetFacets, chainFirst, Option.orElse, hc, hf]

/-- Helper: the chain walk resolves `pattern` likewise. -/
theorem walkScalarConstraints_pattern (c : ValidationConstraints)
    (s : TSScalar) :
    (walkScalarConstraints c s).pattern =
      c.pattern.orElse fun _ => chainFirst (fun f => f.pattern) s := by
  induction s generalizing c with
  | root n f =>
    cases hc : c.pattern <;>
      simp [walkScalarConstraints, adoptUnsetFacets, chainFirst,
        Option.orElse, hc]
  | derived n f base ih =>
    rw [walkScalarConstraints, ih]
    cases hc : c.pattern <;> cases hf : f.pattern <;>
      simp [adoptUnsetFacets, chainFirst, Option.orElse, hc, hf]

/-- Helper: the chain walk resolves `format` likewise. -/
theorem walkScalarConstraints_format (c : ValidationConstraints)
    (s : TSScalar) :
    (walkScalarConstraints c s).format =
      c.format.orElse fun _ => chainFirst (fun f => f.format) s := by
  induction s generalizing c with
  | root n f =>
    cases hc : c.format <;>
      simp [walkScalarConstraints, adoptUnsetFacets, chainFirst,
        Option.orElse, hc]
  | derived n f base ih =>
    rw [walkScalarConstraints, ih]
    cases hc : c.format <;> cases hf : f.format <;>
      simp [adoptUnsetFacets, chainFirst, Option.orElse, hc, hf]

/-- Helper: the chain walk leaves the classification flags untouched. -/
theorem walkScalarConstraints_flags (c : ValidationConstraints)
    (s : TSScalar) :
    (walkScalarConstraints c s).isInteger = c.isInteger ∧
    (walkScalarConstraints c s).isFloat = c.isFloat ∧
    (walkScalarConstraints c s).isDateTime = c.isDateTime ∧
    (walkScalarConstraints c s).dateTimeType = c.dateTimeType ∧
    (walkScalarConstraints c s).enumValues = c.enumValues := by
  induction s generalizing c with
  | root n f => simp [walkScalarConstraints, adoptUnsetFacets]
  | derived n f base ih =>
    rw [walkScalarConstraints]
    simpa [adoptUnsetFacets] using ih (adoptUnsetFacets c f)

/-- C3: for a scalar-typed property, `getValidationConstraints` resolves
every facet slot to the property-level facet when present and otherwise to
the first facet found walking the chain from the most specific scalar
outward (later chain values never overwrite a filled slot), and classifies a
type matching both the integer and the float name sets as integer only. -/
theorem c3_resolveConstraints_spec :
    (∀ (p : TSProp) (s : TSScalar), p.type = .scalar s →
      (getValidationConstraints p).minLength =
        (p.facets.minLength.orElse fun _ =>
          chainFirst (fun f => f.minLength) s) ∧
      (getValidationConstraints p).maxLength =
        (p.facets.maxLength.orElse fun _ =>
          chainFirst (fun f => f.maxLength) s) ∧
      (getValidationConstraints p).minValue =
        (p.facets.minValue.orElse fun _ =>
          chainFirst (fun f => f.minValue) s) ∧
      (getValidationConstraints p).maxValue =
        (p.facets.maxValue.orElse fun _ =>
          chainFirst (fun f => f.maxValue) s) ∧
      (getValidationConstraints p).pattern =
        (p.facets.pattern.orElse fun _ =>
          chainFirst (fun f => f.pattern) s) ∧
      (getValidationConstraints p).format =
        (p.facets.format.orElse fun _ =>
          chainFirst (fun f => f.format) s) ∧
      (getValidationConstraints p).isInteger = isIntegerType s ∧
      (getValidationConstraints p).isFloat =
        (!isIntegerType s && isFloatType s) ∧
      (getValidationConstraints p).isDateTime = isDateTimeType s ∧
      (getValidationConstraints p).dateTimeType =
        (if isDateTimeType s then some (getBaseScalarName s) else none) ∧
      (getValidationConstraints p).enumValues = none) ∧
    (∀ (p : TSProp) (s : TSScalar), p.type = .scalar s →
      isIntegerType s = true → isFloatType s = true →
      (getValidationConstraints p).isInteger = true ∧
      (getValidationConstraints p).isFloat = false) := by
  have main : ∀ (p : TSProp) (s : TSScalar), p.type = .scalar s →
      (getValidationConstraints p).minLength =
        (p.facets.minLength.orElse fun _ =>
          chainFirst (fun f => f.minLength) s) ∧
      (getValidationConstraints p).maxLength =
        (p.facets.maxLength.orElse fun _ =>
          chainFirst (fun f => f.maxLength) s) ∧
      (getValidationConstraints p).minValue =
        (p.facets.minValue.orElse fun _ =>
          chainFirst (fun f => f.minValue) s) ∧
      (getValidationConstraints p).maxValue =
        (p.facets.maxValue.orElse fun _ =>
          chainFirst (fun f => f.maxValue) s) ∧
      (getValidationConstraints p).pattern =
        (p.facets.pattern.orElse fun _ =>
          chainFirst (fun f => f.pattern) s) ∧
      (getValidationConstraints p).format =
        (p.facets.format.orElse fun _ =>
          chainFirst (fun f => f.format) s) ∧
      (getValidationConstraints p).isInteger = isIntegerType s ∧
      (getValidationConstraints p).isFloat =
        (!isIntegerType s && isFloatType s) ∧
      (getValidationConstraints p).isDateTime = isDateTimeType s ∧
      (getValidationConstraints p).dateTimeType =
        (if isDateTimeType s then some (getBaseScalarName s) else none) ∧
      (getValidationConstraints p).enumValues = none := by
    intro p s h
    obtain ⟨nm, opt, ty, dflt, fc⟩ := p
    simp only [TSProp.type] at h
    subst h
    simp only [getValidationConstraints, TSProp.facets, TSProp.type]
    have hw := walkScalarConstraints_flags
      { minLength := fc.minLength, maxLength := fc.maxLength,
        minValue := fc.minValue, maxValue := fc.maxValue,
        pattern := fc.pattern, format := fc.format } s
    split_ifs with h1 h2 h3 <;>
      simp_all [walkScalarConstraints_minLength,
        walkScalarConstraints_maxLength, walkScalarConstraints_minValue,
        walkScalarConstraints_maxValue, walkScalarConstraints_pattern,
        walkScalarConstraints_format]
  refine ⟨main, ?_⟩
  intro p s h hInt hFloat
  obtain ⟨-, -, -, -, -, -, hI, hF, -, -, -⟩ := main p s h
  constructor
  · rw [hI, hInt]
  · rw [hF, hInt, hFloat]
    rfl

/-- Witness for C3: the integer-only component at a scalar matching both
name sets. -/
theorem c3_resolveConstraints_spec_witness :
    (getValidationConstraints bothProp).isInteger = true ∧
    (getValidationConstraints bothProp).isFloat = false :=
  c3_resolveConstraints_spec.2 bothProp bothScalar rfl (by decide) (by decide)

/-- Counterexample for C4: a property marked as a creation timestamp that is
also marked as an update timestamp takes the update branch of
`emitAttribute`, so its composed attribute is not read-only (it carries
`watch: "*"` instead), contradicting the claim's unconditional
creation-timestamp clause. -/
theorem c4_counterexample_both_marks :
    (ctxBoth.createdAtState int32Prop).isSome = true ∧
    emitAttribute ctxBoth int32Prop =
      .ok (.mk (.name "number") .none .none (some true) (some .nowFn) none
        none (some "*") none true) ∧
    (Attribute.mk (.name "number") .none .none (some true) (some .nowFn) none
        none (some "*") none true).readOnly = none :=
  ⟨rfl, rfl, rfl⟩

/-- C4 (amended): a property marked as an update timestamp composes to a
required number with `watch: "*"` and current-time default and set
behaviours; a property marked as a creation timestamp and not as an update
timestamp composes to a required read-only number with the same behaviours;
and for a property carrying either marker, composition fails when the mapped
type is not numeric. -/
theorem c4_timestamp_attributes_spec :
    (∀ (ctx : EmitCtx) (p : TSProp) (a : Attribute),
      (ctx.updatedAtState p).isSome = true →
      emitAttribute ctx p = .ok a →
      a.type = .name "number" ∧ a.required = some true ∧
      a.watch = some "*" ∧ a.default = some .nowFn ∧ a.setNow = true) ∧
    (∀ (ctx : EmitCtx) (p : TSProp) (a : Attribute),
      ctx.updatedAtState p = none →
      (ctx.createdAtState p).isSome = true →
      emitAttribute ctx p = .ok a →
      a.type = .name "number" ∧ a.required = some true ∧
      a.readOnly = some true ∧ a.default = some .nowFn ∧ a.setNow = true) ∧
    (∀ (ctx : EmitCtx) (p : TSProp) (t : Attribute),
      ((ctx.updatedAtState p).isSome = true ∨
        (ctx.createdAtState p).isSome = true) →
      emitType p.type = .ok t →
      t.type ≠ .name "number" →
      emitAttribute ctx p = .error "createdAt must be a number") := by
  refine ⟨?_, ?_, ?_⟩
  · intro ctx p a hU hE
    unfold emitAttribute at hE
    cases ht : emitType p.type with
    | error e => rw [ht] at hE; exact absurd hE (by simp [Except.bind])
    | ok t =>
      rw [ht] at hE
      simp only [Except.bind, hU, if_true] at hE
      by_cases htt : t.type = AttrType.name "number"
      · rw [if_pos htt] at hE
        obtain ⟨tt, ti, tp, tr, td, tl, tro, tw, tv, ts⟩ := t
        cases hE
        exact ⟨rfl, rfl, rfl, rfl, rfl⟩
      · rw [if_neg htt] at hE
        exact absurd hE (by simp)
  · intro ctx p a hU hC hE
    unfold emitAttribute at hE
    cases ht : emitType p.type with
    | error e => rw [ht] at hE; exact absurd hE (by simp [Except.bind])
    | ok t =>
      rw [ht] at hE
      simp only [Except.bind, hU, hC, Option.isSome_none, Bool.false_eq_true,
        if_false, if_true] at hE
      by_cases htt : t.type = AttrType.name "number"
      · rw [if_pos htt] at hE
        obtain ⟨tt, ti, tp, tr, td, tl, tro, tw, tv, ts⟩ := t
        cases hE
        exact ⟨rfl, rfl, rfl, rfl, rfl⟩
      · rw [if_neg htt] at hE
        exact absurd hE (by simp)
  · intro ctx p t hMark ht htt
    unfold emitAttribute
    rw [ht]
    cases hU : (ctx.updatedAtState p).isSome with
    | true => simp [Except.bind, hU, if_neg htt]
    | false =>
      have hC : (ctx.createdAtState p).isSome = true := by
        rcases hMark with h | h
        · rw [hU] at h; exact absurd h (by simp)
        · exact h
      simp [Except.bind, hU, hC, if_neg htt]

/-- Witness for C4: the creation-timestamp component applied at an `int32`
property marked only as a creation timestamp. -/
theorem c4_timestamp_attributes_spec_witness :
    (Attribute.mk (.name "number") .none .none (some true) (some .nowFn) none
        (some true) none none true).type = .name "number" ∧
    (Attribute.mk (.name "number") .none .none (some true) (some .nowFn) none
        (some true) none none true).required = some true ∧
    (Attribute.mk (.name "number") .none .none (some true) (some .nowFn) none
        (some true) none none true).readOnly = some true ∧
    (Attribute.mk (.name "number") .none .none (some true) (some .nowFn) none
        (some true) none none true).default = some .nowFn ∧
    (Attribute.mk (.name "number") .none .none (some true) (some .nowFn) none
        (some true) none none true).setNow = true :=
  c4_timestamp_attributes_spec.2.1 ctxCreated int32Prop
    (.mk (.name "number") .none .none (some true) (some .nowFn) none
      (some true) none none true) rfl rfl rfl

/-- Helper: every attribute produced by the type mapper is type-only —
no required, default, label, readOnly, watch, validate or set field. -/
theorem emitType_typeOnly_fields (ty : TSType) (a : Attribute)
    (h : emitType ty = .ok a) :
    a.label = none ∧ a.watch = none ∧ a.readOnly = none ∧ a.setNow = false ∧
    a.required = none ∧ a.default = none ∧ a.validate = none := by
  cases ty with
  | scalar s =>
    unfold emitType emitScalar at h
    cases hk : emitIntrinsincScalar s.rootScalar.name <;> rw [hk] at h
    · exact absurd h (by simp)
    · cases h
      exact ⟨rfl, rfl, rfl, rfl, rfl, rfl, rfl⟩
  | model m =>
    obtain ⟨name, idx, props⟩ := m
    unfold emitType emitModel at h
    by_cases hn : name = "Array"
    · rw [if_pos hn] at h
      cases idx with
      | none => exact absurd h (by simp [emitArrayModel])
      | mk el =>
        unfold emitArrayModel at h
        split at h
        · cases h
          exact ⟨rfl, rfl, rfl, rfl, rfl, rfl, rfl⟩
        · split at h
          · exact absurd h (by simp)
          · cases h
            exact ⟨rfl, rfl, rfl, rfl, rfl, rfl, rfl⟩
    · rw [if_neg hn] at h
      split at h
      · exact absurd h (by simp)
      · cases h
        exact ⟨rfl, rfl, rfl, rfl, rfl, rfl, rfl⟩
  | enum e =>
    cases h
    exact ⟨rfl, rfl, rfl, rfl, rfl, rfl, rfl⟩
  | union variants =>
    cases h
    unfold emitUnion
    split
    · exact ⟨rfl, rfl, rfl, rfl, rfl, rfl, rfl⟩
    · exact ⟨rfl, rfl, rfl, rfl, rfl, rfl, rfl⟩
  | strLit v => exact absurd h (by simp [emitType])
  | numLit v => exact absurd h (by simp [emitType])
  | other k => exact absurd h (by simp [emitType])

/-- Counterexample for C10: an empty-string label stored for a non-timestamp
property is dropped by the truthiness test `if (label)` of `emitAttribute`,
so the composed attribute carries no label field even though label metadata
is attached. -/
theorem c10_counterexample_empty_label :
    ctxEmptyLabel.labelState plainStringProp = some "" ∧
    ctxEmptyLabel.updatedAtState plainStringProp = none ∧
    ctxEmptyLabel.createdAtState plainStringProp = none ∧
    emitAttribute ctxEmptyLabel plainStringProp =
      .ok (.mk (.name "string") .none .none (some true) none none none none
        none false) ∧
    (Attribute.mk (.name "string") .none .none (some true) none none none
        none none false).label = none :=
  ⟨rfl, rfl, rfl, rfl, rfl⟩

/-- C10 (amended): a property marked as a creation or update timestamp
composes to an attribute with no label field, and the stored timestamp
metadata values (the optional field-name override) and the stored label have
no effect on the result; a nonempty label stored for a non-timestamp
property is attached as the label field (an empty-string label is dropped by
the truthiness test). -/
theorem c10_label_spec :
    (∀ (ctx : EmitCtx) (p : TSProp) (a : Attribute),
      ((ctx.updatedAtState p).isSome = true ∨
        (ctx.createdAtState p).isSome = true) →
      emitAttribute ctx p = .ok a →
      a.label = none) ∧
    (∀ (u c l u2 c2 l2 : TSProp → Option String) (p : TSProp),
      (u p).isSome = (u2 p).isSome →
      (c p).isSome = (c2 p).isSome →
      ((u p).isSome = true ∨ (c p).isSome = true) →
      emitAttribute ⟨u, c, l⟩ p = emitAttribute ⟨u2, c2, l2⟩ p) ∧
    (∀ (ctx : EmitCtx) (p : TSProp) (l : String) (a : Attribute),
      ctx.updatedAtState p = none →
      ctx.createdAtState p = none →
      ctx.labelState p = some l → l ≠ "" →
      emitAttribute ctx p = .ok a →
      a.label = some l) := by
  refine ⟨?_, ?_, ?_⟩
  · intro ctx p a hMark hE
    unfold emitAttribute at hE
    cases ht : emitType p.type <;> rw [ht] at hE
    · exact absurd hE (by simp)
    · rename_i t
      have hl := (emitType_typeOnly_fields p.type t ht).1
      cases hU : (ctx.updatedAtState p).isSome with
      | true =>
        simp only [hU, if_true] at hE
        by_cases htt : t.type = AttrType.name "number"
        · rw [if_pos htt] at hE
          obtain ⟨tt, ti, tp, tr, td, tl, tro, tw, tv, ts⟩ := t
          cases hE
          simpa [Attribute.label] using hl
        · rw [if_neg htt] at hE
          exact absurd hE (by simp)
      | false =>
        have hC : (ctx.createdAtState p).isSome = true := by
          rcases hMark with h | h
          · rw [hU] at h; exact absurd h (by simp)
          · exact h
        simp only [hU, hC, Bool.false_eq_true, if_false, if_true] at hE
        by_cases htt : t.type = AttrType.name "number"
        · rw [if_pos htt] at hE
          obtain ⟨tt, ti, tp, tr, td, tl, tro, tw, tv, ts⟩ := t
          cases hE
          simpa [Attribute.label] using hl
        · rw [if_neg htt] at hE
          exact absurd hE (by simp)
  · intro u c l u2 c2 l2 p h1 h2 hMark
    unfold emitAttribute
    cases ht : emitType p.type
    · rfl
    · rename_i t
      simp only []
      cases hU2 : (u2 p).isSome with
      | true =>
        have hU : (u p).isSome = true := by rw [h1, hU2]
        simp only [hU, hU2, if_true]
      | false =>
        have hU : (u p).isSome = false := by rw [h1, hU2]
        have hC : (c p).isSome = true := by
          rcases hMark with h | h
          · rw [hU] at h; exact absurd h (by simp)
          · exact h
        have hC2 : (c2 p).isSome = true := by rw [← h2, hC]
        simp only [hU, hU2, hC, hC2, Bool.false_eq_true, if_false, if_true]
  · intro ctx p l a hU hC hL hne hE
    unfold emitAttribute at hE
    cases ht : emitType p.type <;> rw [ht] at hE
    · exact absurd hE (by simp)
    · rename_i t
      simp only [hU, hC, getLabel, hL, Option.isSome_none, Bool.false_eq_true,
        if_false] at hE
      rw [if_neg hne] at hE
      obtain ⟨tt, ti, tp, tr, td, tl, tro, tw, tv, ts⟩ := t
      repeat' split at hE
      all_goals (cases hE; rfl)

/-- Witness for C10: the nonempty-label component at a labelled plain string
property. -/
theorem c10_label_spec_witness :
    (Attribute.mk (.name "string") .none .none (some true) none (some "fn")
        none none none false).label = some "fn" :=
  c10_label_spec.2.2 ⟨fun _ => none, fun _ => none, fun _ => some "fn"⟩
    plainStringProp "fn"
    (.mk (.name "string") .none .none (some true) none (some "fn") none none
      none false)
    rfl rfl rfl (by decide) rfl

/-- Counterexample for C6: an enum with zero members maps to an enum-like
descriptor whose value list is empty, violating the non-empty part of the
invariant that the claim extends to zero-member enums. -/
theorem c6_counterexample_empty_enum :
    emitType (.enum ⟨[]⟩) = .ok (.typeOnly (.enumVals [])) ∧
    ¬ attrWellFormed (.typeOnly (.enumVals [])) :=
  ⟨rfl, fun h => (h.2.2.2 [] rfl) rfl⟩

/-- C6 (amended): every attribute descriptor produced by the type mapper
satisfies the invariant — `list` implies items, `map` implies properties,
`set`/enum-like implies a non-empty literal string array — provided the
source enum (or array-element enum) has at least one member and an
all-literal union has at least one variant; zero-member enums and
zero-variant unions produce an empty literal array instead. -/
theorem c6_mapper_wellformed_spec :
    ∀ (t : TSType) (a : Attribute),
      emitType t = .ok a → enumSourcesNonEmptyTop t → attrWellFormed a := by
  intro t a h hne
  cases t with
  | scalar s =>
    unfold emitType emitScalar at h
    cases hk : emitIntrinsincScalar s.rootScalar.name <;> rw [hk] at h
    · exact absurd h (by simp)
    · rename_i k
      cases h
      have hkv : k = "boolean" ∨ k = "number" ∨ k = "string" := by
        unfold emitIntrinsincScalar at hk
        split at hk <;> simp_all
      rcases hkv with h1 | h1 | h1 <;> subst h1 <;>
        refine ⟨?_, ?_, ?_, ?_⟩ <;>
        simp [Attribute.typeOnly, Attribute.type]
  | model m =>
    obtain ⟨name, idx, props⟩ := m
    unfold emitType emitModel at h
    by_cases hn : name = "Array"
    · rw [if_pos hn] at h
      subst hn
      have hne2 := hne rfl
      cases idx with
      | none => exact absurd h (by simp [emitArrayModel])
      | mk el =>
        unfold emitArrayModel at h
        split at h
        · cases h
          refine ⟨?_, ?_, ?_, ?_⟩ <;>
            simp [Attribute.type, Attribute.items, Attribute.properties]
          simpa [enumMemberValues] using hne2
        · split at h
          · exact absurd h (by simp)
          · cases h
            refine ⟨?_, ?_, ?_, ?_⟩ <;>
              simp [Attribute.type, Attribute.items, Attribute.properties]
    · rw [if_neg hn] at h
      split at h
      · exact absurd h (by simp)
      · cases h
        refine ⟨?_, ?_, ?_, ?_⟩ <;>
          simp [Attribute.type, Attribute.items, Attribute.properties]
  | enum e =>
    cases h
    refine ⟨?_, ?_, ?_, ?_⟩
    · simp [emitEnumModel, Attribute.typeOnly, Attribute.type]
    · simp [emitEnumModel, Attribute.typeOnly, Attribute.type]
    · simp [emitEnumModel, Attribute.typeOnly, Attribute.type]
    · intro vs hv
      simp only [emitEnumModel, Attribute.typeOnly, Attribute.type] at hv
      cases hv
      simpa [enumMemberValues] using hne
  | union variants =>
    cases h
    rcases hL : isLiteralUnion variants with _ | lits <;>
      simp only [emitUnion, hL]
    · refine ⟨?_, ?_, ?_, ?_⟩ <;>
        simp [Attribute.typeOnly, Attribute.type]
    · refine ⟨?_, ?_, ?_, ?_⟩
      · simp [Attribute.typeOnly, Attribute.type]
      · simp [Attribute.typeOnly, Attribute.type]
      · simp [Attribute.typeOnly, Attribute.type]
      · intro vs hv
        simp only [Attribute.typeOnly, Attribute.type] at hv
        cases hv
        exact hne lits hL
  | strLit v => exact absurd h (by simp [emitType])
  | numLit v => exact absurd h (by simp [emitType])
  | other k => exact absurd h (by simp [emitType])

/-- Witness for C6: the amended invariant at a one-member enum. -/
theorem c6_mapper_wellformed_spec_witness :
    attrWellFormed (.typeOnly (.enumVals ["A"])) :=
  c6_mapper_wellformed_spec (.enum ⟨[("A", none)]⟩)
    (.typeOnly (.enumVals ["A"])) rfl (by simp [enumSourcesNonEmptyTop])

/-- Helper: one head step of the iterated base relation. -/
theorem iterBase_head (g : ScalarGraph) (s b : Nat) (hg : g s = some b) :
    ∀ k, iterBase g s (k + 1) = iterBase g b k := by
  intro k
  induction k with
  | zero => simp [iterBase, hg]
  | succ j ih =>
    show (iterBase g s (j + 1)).bind g = (iterBase g b j).bind g
    rw [ih]

/-- Helper: a chain that has already ended stays ended. -/
theorem iterBase_none (g : ScalarGraph) (s : Nat) (hg : g s = none) :
    ∀ k, iterBase g s (k + 1) = none := by
  intro k
  induction k with
  | zero => simp [iterBase, hg]
  | succ j ih =>
    show (iterBase g s (j + 1)).bind g = none
    rw [ih]
    rfl

/-- Counterexample for C7: on the one-node cyclic derivation graph the root
walk of `emitScalar` never terminates — it yields no result at any step
bound — so it neither detects the cycle nor fails with an UnsupportedType
error. -/
theorem c7_counterexample_cycle : ¬ walkTerminates cyclicGraph 0 := by
  have haux : ∀ n, walkRoot cyclicGraph 0 n = none := by
    intro n
    induction n with
    | zero => rfl
    | succ m ih =>
      have h0 : cyclicGraph 0 = some 0 := rfl
      simp [walkRoot, h0, ih]
  rintro ⟨n, hn⟩
  rw [haux n] at hn
  simp at hn

/-- C7 (amended): the scalar chain walk terminates exactly when the base
chain reaches a root (a node with no base) after finitely many steps; the
code contains no cycle detection, so on a chain that never reaches a root —
a cycle — the walk diverges instead of failing with an UnsupportedType
error. -/
theorem c7_chain_walk_termination_spec :
    ∀ (g : ScalarGraph) (s : Nat),
      walkTerminates g s ↔ ∃ k r, iterBase g s k = some r ∧ g r = none := by
  intro g s
  constructor
  · rintro ⟨n, hn⟩
    induction n generalizing s with
    | zero => simp [walkRoot] at hn
    | succ m ih =>
      cases hg : g s with
      | none => exact ⟨0, s, rfl, hg⟩
      | some b =>
        have hn2 : (walkRoot g b m).isSome := by
          simpa [walkRoot, hg] using hn
        obtain ⟨k, r, hk, hr⟩ := ih b hn2
        refine ⟨k + 1, r, ?_, hr⟩
        rw [iterBase_head g s b hg k]
        exact hk
  · rintro ⟨k, r, hk, hr⟩
    have haux : ∀ (k s r : Nat), iterBase g s k = some r → g r = none →
        walkRoot g s (k + 1) = some r := by
      intro k
      induction k with
      | zero =>
        intro s r hk hr
        simp only [iterBase] at hk
        cases hk
        simp [walkRoot, hr]
      | succ j ih =>
        intro s r hk hr
        cases hg : g s with
        | none =>
          rw [iterBase_none g s hg j] at hk
          exact absurd hk (by simp)
        | some b =>
          rw [iterBase_head g s b hg j] at hk
          have hb := ih b r hk hr
          simpa [walkRoot, hg] using hb
    refine ⟨k + 1, ?_⟩
    rw [haux k s r hk hr]
    rfl

/-- Witness for C7: the amended criterion at the two-node acyclic graph. -/
theorem c7_chain_walk_termination_spec_witness :
    walkTerminates acyclicGraph 0 :=
  (c7_chain_walk_termination_spec acyclicGraph 0).mpr ⟨1, 1, rfl, rfl⟩

/-- Helper: rendered object members keep their keys in insertion order. -/
theorem stringifyFields_keys : ∀ (fs : JSFields) (ps : List (String × String)),
    stringifyFields fs = .ok ps → ps.map Prod.fst = fs.keys
  | .nil, ps, h => by
    cases h
    rfl
  | .cons k v rest, ps, h => by
    unfold stringifyFields at h
    cases hv : stringifyValue v <;> rw [hv] at h
    · exact absurd h (by simp)
    · cases ht : stringifyFields rest <;> rw [ht] at h
      · exact absurd h (by simp)
      · cases h
        simp [JSFields.keys, stringifyFields_keys rest _ ht]
termination_by structural fs => fs

/-- C5: `stringifyValue` renders `undefined` as the text `undefined`, `null`
as `null`, a string as its double-quoted text, numbers and booleans as their
literal text, a function as its own source text verbatim, an array as a
bracketed comma-joined rendering of its elements in order, and a plain
record member by member with output key order equal to insertion order and
no sorting; the remaining run-time kinds (bigint, symbol) fail with
`Unsupported value type`. -/
theorem c5_serialize_spec :
    stringifyValue .undef = .ok "undefined" ∧
    stringifyValue .nullV = .ok "null" ∧
    (∀ s, stringifyValue (.str s) = .ok ("\"" ++ s ++ "\"")) ∧
    (∀ n, stringifyValue (.num n) = .ok (jsNumToString n)) ∧
    (∀ b, stringifyValue (.boolean b) =
      .ok (if b then "true" else "false")) ∧
    (∀ source, stringifyValue (.func source) = .ok source) ∧
    (∀ (l : JSList) (ts : List String), stringifyList l = .ok ts →
      stringifyValue (.arr l) =
        .ok ("[" ++ String.intercalate ", " ts ++ "]")) ∧
    (∀ (fs : JSFields) (ps : List (String × String)),
      stringifyFields fs = .ok ps →
      stringifyValue (.obj fs) = .ok (generateObjectCode ps) ∧
      ps.map Prod.fst = fs.keys) ∧
    stringifyValue .bigintV = .error "Unsupported value type: bigint" ∧
    stringifyValue .symbolV = .error "Unsupported value type: symbol" := by
  refine ⟨rfl, rfl, fun s => rfl, fun n => rfl, fun b => rfl,
    fun source => rfl, ?_, ?_, rfl, rfl⟩
  · intro l ts h
    simp only [stringifyValue, h]
  · intro fs ps h
    constructor
    · simp only [stringifyValue, h]
    · exact stringifyFields_keys fs ps h

/-- Witness for C5: the record component at a two-member object holding a
number and an embedded function. -/
theorem c5_serialize_spec_witness :
    stringifyValue (.obj (.cons "a" (.num (.finite 1))
        (.cons "f" (.func "() => \x7b\x7d") .nil))) =
      .ok (generateObjectCode [("a", "1"), ("f", "() => \x7b\x7d")]) ∧
    ([("a", "1"), ("f", "() => \x7b\x7d")].map Prod.fst =
      (JSFields.cons "a" (.num (.finite 1))
        (.cons "f" (.func "() => \x7b\x7d") .nil)).keys) :=
  c5_serialize_spec.2.2.2.2.2.2.2.1
    (.cons "a" (.num (.finite 1)) (.cons "f" (.func "() => \x7b\x7d") .nil))
    [("a", "1"), ("f", "() => \x7b\x7d")] rfl

/-- Counterexample for C8: no attribute of `taskSchema` used the escape
hatch, yet the import line is emitted, because the import decision is a
substring test on the serialized definitions and the string default value
`CustomAttributeType` matches it. -/
theorem c8_counterexample_string_default :
    schemasUseCustom [("Task", taskSchema)] = false ∧
    importEmitted [("Task", taskSchema)] = true :=
  ⟨rfl, rfl⟩

/-- C8 (amended): the generated source contains the import line exactly when
the joined serialized entity definitions contain the text
`CustomAttributeType` anywhere — in particular whenever some attribute used
the escape hatch, but also when an unrelated string value contains that
text. -/
theorem c8_import_substring_spec :
    (∀ (entities : List (String × EntitySchema)) (defs : List String),
      entityDefinitions entities = .ok defs →
      (importEmitted entities = true ↔
        hasSubstr (String.intercalate "\n" defs) "CustomAttributeType" =
          true) ∧
      typescriptSource entities =
        .ok (importsSection (String.intercalate "\n" defs) ++
          String.intercalate "\n" defs)) ∧
    (schemasUseCustom [("Union", unionSchema)] = true ∧
      importEmitted [("Union", unionSchema)] = true) := by
  refine ⟨?_, rfl, rfl⟩
  intro entities defs h
  constructor
  · simp [importEmitted, h]
  · simp [typescriptSource, h]

/-- Witness for C8: the substring criterion applied at the escape-hatch
schema. -/
theorem c8_import_substring_spec_witness :
    importEmitted [("Union", unionSchema)] = true := by
  have h := (c8_import_substring_spec.1 [("Union", unionSchema)] _ rfl).1
  exact h.mpr (by rfl)

/-- C9: `extractFieldNames` accepts a composite list exactly when every
entry is a `ModelProperty` of the target entity — yielding the property
names in order — and rejects any list containing a value of another kind or
a property of another entity with the
`Access patterns must use properties from the model` error, so no such
composite reaches the assembled index descriptor. -/
theorem c9_extractFieldNames_spec :
    (∀ (target : String) (entries : List TupleEntry) (names : List String),
      extractFieldNames target entries = .ok names →
      names = entries.map TupleEntry.entryName ∧
      ∀ e ∈ entries, ∃ n, e = .modelProp target n) ∧
    (∀ (target : String) (entries : List TupleEntry),
      (∃ e ∈ entries, ∀ n, e ≠ .modelProp target n) →
      extractFieldNames target entries =
        .error "Access patterns must use properties from the model") := by
  constructor
  · intro target entries
    induction entries with
    | nil =>
      intro names h
      cases h
      exact ⟨rfl, by simp⟩
    | cons e rest ih =>
      intro names h
      cases e with
      | modelProp owner n =>
        simp only [extractFieldNames] at h
        by_cases ho : owner = target
        · rw [if_pos ho] at h
          cases hr : extractFieldNames target rest <;> rw [hr] at h
          · exact absurd h (by simp [Except.map])
          · rename_i tail
            simp only [Except.map] at h
            cases h
            obtain ⟨h1, h2⟩ := ih tail hr
            subst ho
            refine ⟨by simp [TupleEntry.entryName, h1], ?_⟩
            intro e2 he2
            rcases List.mem_cons.mp he2 with h3 | h3
            · exact ⟨n, h3⟩
            · exact h2 e2 h3
        · rw [if_neg ho] at h
          exact absurd h (by simp)
      | otherKind k =>
        simp only [extractFieldNames] at h
        exact absurd h (by simp)
  · intro target entries
    induction entries with
    | nil =>
      rintro ⟨e, he, -⟩
      cases he
    | cons e rest ih =>
      rintro ⟨e2, he2, hne⟩
      cases e with
      | modelProp owner n =>
        simp only [extractFieldNames]
        by_cases ho : owner = target
        · rw [if_pos ho]
          rcases List.mem_cons.mp he2 with h1 | h1
          · subst h1
            subst ho
            exact absurd rfl (hne n)
          · rw [ih ⟨e2, h1, hne⟩]
            rfl
        · rw [if_neg ho]
      | otherKind k => simp only [extractFieldNames]
  

/-- Witness for C9: the acceptance component at the demo `Job` index
composite. -/
theorem c9_extractFieldNames_spec_witness :
    ["personId", "jobId"] =
      [TupleEntry.modelProp "Job" "personId",
        TupleEntry.modelProp "Job" "jobId"].map TupleEntry.entryName ∧
    ∀ e ∈ [TupleEntry.modelProp "Job" "personId",
        TupleEntry.modelProp "Job" "jobId"], ∃ n, e = .modelProp "Job" n :=
  c9_extractFieldNames_spec.1 "Job"
    [.modelProp "Job" "personId", .modelProp "Job" "jobId"]
    ["personId", "jobId"] rfl
